import Mathlib

/-
Verification of the rlm-minimal event-streaming core:
the WebLogger event log (src/rlm/logger/web_logger.py),
the RLM_WEB.completion agent loop (src/rlm/rlm_web.py), and
the Flask streaming bridge (src/app.py).

External collaborators (the llm client, prompt builders, code-block
extraction, code execution and the final-answer check, all declared
out of scope by the design document) are modelled as an `Oracle`
record of functions the theorems quantify over.
-/

namespace RlmMinimal

/-- A JSON-like value, the payload universe for Event.data and for the
wire record produced by `Event.to_dict` (Python dict / `asdict`). -/
inductive JVal where
  | str (s : String)
  | int (n : Int)
  | bool (b : Bool)
  | null
  | obj (fields : List (String × JVal))
  | arr (elems : List JVal)

/-- The `Event` dataclass of web_logger.py: fields in declaration order
`type`, `timestamp`, `data`, `step` (step defaults to None). -/
structure Event where
  type : String
  timestamp : String
  data : List (String × JVal)
  step : Option Nat := none

/-- `Event.to_dict`: `asdict(self)` flattens the dataclass into a dict
with the four fields in declaration order. -/
def Event.to_dict (e : Event) : JVal :=
  .obj [("type", .str e.type),
        ("timestamp", .str e.timestamp),
        ("data", .obj e.data),
        ("step", match e.step with
                 | some n => .int (Int.ofNat n)
                 | none => .null)]

/-- Modelled from the spec: the client-side parse of the wire record
(section 6, Event wire format: fields `type` string, `timestamp` string,
`step` integer or absent/null, `data` field mapping). No parser exists
under src/; this follows the spec's description of what a client must
be able to parse. -/
def parseEventRecord (j : JVal) : Option Event :=
  match j with
  | .obj fs =>
    match List.lookup "type" fs, List.lookup "timestamp" fs,
          List.lookup "data" fs, List.lookup "step" fs with
    | some (.str ty), some (.str ts), some (.obj d), some (.int (.ofNat k)) =>
        some ⟨ty, ts, d, some k⟩
    | some (.str ty), some (.str ts), some (.obj d), some .null =>
        some ⟨ty, ts, d, none⟩
    | _, _, _, _ => none
  | _ => none

/-- The `WebLogger` class state: the event list, the conversation step
counter and the current query. Timestamps are passed explicitly since
`datetime.now()` is an external effect. -/
structure WebLogger where
  events : List Event
  conversation_step : Nat
  current_query : String

def WebLogger.init : WebLogger :=
  { events := [], conversation_step := 0, current_query := "" }

/-- `log_query_start`: resets the step counter, clears the event list,
then appends one `query_start` event (no step). -/
def WebLogger.log_query_start (_l : WebLogger) (query ts : String) : WebLogger :=
  { current_query := query,
    conversation_step := 0,
    events := [{ type := "query_start", timestamp := ts,
                 data := [("query", .str query)] }] }

/-- `log_model_response`: increments the step counter, appends a
`model_response` event carrying the new step. -/
def WebLogger.log_model_response (l : WebLogger) (response : String)
    (has_tool_calls : Bool) (ts : String) : WebLogger :=
  { l with
    conversation_step := l.conversation_step + 1,
    events := l.events ++
      [{ type := "model_response", timestamp := ts,
         data := [("response", .str response),
                  ("has_tool_calls", .bool has_tool_calls)],
         step := some (l.conversation_step + 1) }] }

/-- `log_code_execution`: appends a `code_execution` event carrying the
current step. Python's float execution_time is abstracted as an optional
integer; no claim depends on float arithmetic. -/
def WebLogger.log_code_execution (l : WebLogger) (code stdout stderr : String)
    (execution_time : Option Int) (ts : String) : WebLogger :=
  { l with
    events := l.events ++
      [{ type := "code_execution", timestamp := ts,
         data := [("code", .str code), ("stdout", .str stdout),
                  ("stderr", .str stderr),
                  ("execution_time", match execution_time with
                                     | some n => .int n
                                     | none => .null)],
         step := some l.conversation_step }] }

/-- `log_repl_output`: appends a `repl_output` event carrying the
current step. -/
def WebLogger.log_repl_output (l : WebLogger) (output ts : String) : WebLogger :=
  { l with
    events := l.events ++
      [{ type := "repl_output", timestamp := ts,
         data := [("output", .str output)],
         step := some l.conversation_step }] }

/-- `log_final_response`: appends a `final_answer` event (no step). -/
def WebLogger.log_final_response (l : WebLogger) (response ts : String) : WebLogger :=
  { l with
    events := l.events ++
      [{ type := "final_answer", timestamp := ts,
         data := [("answer", .str response)] }] }

/-- `log_error`: appends an `error` event (no step). -/
def WebLogger.log_error (l : WebLogger) (error ts : String) : WebLogger :=
  { l with
    events := l.events ++
      [{ type := "error", timestamp := ts,
         data := [("error", .str error)] }] }

/-- `log_tool_execution`: appends a `tool_execution` event carrying the
current step (used by `utils.check_for_final_answer`). -/
def WebLogger.log_tool_execution (l : WebLogger) (tool result ts : String) : WebLogger :=
  { l with
    events := l.events ++
      [{ type := "tool_execution", timestamp := ts,
         data := [("tool", .str tool), ("result", .str result)],
         step := some l.conversation_step }] }

/-- `clear`: empties the event list and resets the step counter. -/
def WebLogger.clear (l : WebLogger) : WebLogger :=
  { l with events := [], conversation_step := 0 }

/-- One call to a WebLogger method, with its arguments (timestamps
included, standing for the `datetime.now()` reads). -/
inductive LoggerOp where
  | query_start (query ts : String)
  | model_response (response : String) (has_tool_calls : Bool) (ts : String)
  | code_execution (code stdout stderr : String) (execution_time : Option Int) (ts : String)
  | repl_output (output ts : String)
  | final_response (response ts : String)
  | error_log (error ts : String)
  | tool_execution (tool result ts : String)
  | clear

def applyOp (l : WebLogger) : LoggerOp → WebLogger
  | .query_start q ts => l.log_query_start q ts
  | .model_response r b ts => l.log_model_response r b ts
  | .code_execution c o e t ts => l.log_code_execution c o e t ts
  | .repl_output o ts => l.log_repl_output o ts
  | .final_response r ts => l.log_final_response r ts
  | .error_log e ts => l.log_error e ts
  | .tool_execution t r ts => l.log_tool_execution t r ts
  | .clear => l.clear

def applyOps (ops : List LoggerOp) (l : WebLogger) : WebLogger :=
  ops.foldl applyOp l

/-- Whether an operation resets the log (removes previously appended
events) rather than appending to it. -/
def LoggerOp.isReset : LoggerOp → Bool
  | .query_start _ _ => true
  | .clear => true
  | _ => false

/-- Number of `model_response` events in a list. -/
def mrCount (evs : List Event) : Nat :=
  (evs.filter (fun e => e.type == "model_response")).length

/-- The step-numbering discipline for one event, given the events
appended before it: `model_response` events carry (number of prior
model responses) + 1, the per-step event types carry the number of
prior model responses, and run-level events carry no step. -/
def eventStepOk (pre : List Event) (e : Event) : Prop :=
  if e.type = "model_response" then e.step = some (mrCount pre + 1)
  else if e.type = "code_execution" ∨ e.type = "repl_output" ∨ e.type = "tool_execution" then
    e.step = some (mrCount pre)
  else e.step = none

/-- Every event in the list obeys the step-numbering discipline with
respect to the events before it. -/
def stepsOk (evs : List Event) : Prop :=
  ∀ i (h : i < evs.length), eventStepOk (evs.take i) evs[i]

/-- Invariant tying the logger's step counter to its event list. -/
def loggerInv (l : WebLogger) : Prop :=
  stepsOk l.events ∧ l.conversation_step = mrCount l.events

/-- A conversation turn: one of the role-tagged `messages` dicts. -/
structure Message where
  role : String
  content : String

/-- One sandbox invocation result, as recorded by the REPL env logger
(`execution.code / stdout / stderr / execution_time`). Python's float
execution_time is abstracted as an optional integer. -/
structure ExecutionRecord where
  code : String
  stdout : String
  stderr : String
  execution_time : Option Int

/-- A logger call performed inside `utils.check_for_final_answer`,
which receives the WebLogger and may append `tool_execution` and
`repl_output` events to it. -/
inductive SideLog where
  | toolExec (tool result : String)
  | replOut (output : String)

/-- The external collaborators of RLM_WEB.completion, out of scope for
the core (llm client, prompt templates, code-block extraction, code
execution, final-answer recognition, the clock). `R` is the opaque
REPL-environment state. The fallible collaborators return `Except`
with the string description of the raised exception. `llm` also
receives the index of the call, modelling the nondeterminism of the
network service across successive calls. -/
structure Oracle (R : Type) where
  now : Nat → String
  default_query : String
  build_system_prompt : List Message
  next_action_prompt : Option String → Nat → Bool → Message
  llm : Nat → List Message → Except String String
  find_code_blocks : String → Option (List String)
  process_code_execution : String → List Message → R →
    Except String (List Message × R × List ExecutionRecord)
  check_for_final_answer : String → R → List SideLog × R × Option String
  initRepl : String → R

variable {R : Type}

/-- The mutable state of one RLM_WEB run: the conversation, the
logger, the REPL env logger's execution list, the REPL state, plus
instrumentation: `streamed` is the sequence of events passed to
`event_callback` (in order), `llmCalls` counts calls to the Model
collaborator, `clock` counts `datetime.now()` reads. -/
structure RunState (R : Type) where
  messages : List Message
  logger : WebLogger
  replExecutions : List ExecutionRecord
  repl : R
  streamed : List Event
  llmCalls : Nat
  clock : Nat

/-- The `self.event_callback(self.logger.events[-1])` idiom: forward
the last event of the log to the registered observer. -/
def pushStream (st : RunState R) : RunState R :=
  match st.logger.events.getLast? with
  | some e => { st with streamed := st.streamed ++ [e] }
  | none => st

/-- The per-execution logging loop: for each new ExecutionRecord, call
`log_code_execution` and forward the event to the callback. -/
def logStreamExecs (oc : Oracle R) : List ExecutionRecord → RunState R → RunState R
  | [], st => st
  | r :: rs, st =>
    logStreamExecs oc rs
      (pushStream { st with
        logger := st.logger.log_code_execution r.code r.stdout r.stderr
          r.execution_time (oc.now st.clock),
        clock := st.clock + 1 })

/-- Apply the logger calls made inside `check_for_final_answer`. These
append to the log but are NOT forwarded to `event_callback` (the code
only forwards at its four explicit call sites). -/
def applySideLogs (oc : Oracle R) : List SideLog → RunState R → RunState R
  | [], st => st
  | .toolExec t r :: rest, st =>
    applySideLogs oc rest { st with
      logger := st.logger.log_tool_execution t r (oc.now st.clock),
      clock := st.clock + 1 }
  | .replOut o :: rest, st =>
    applySideLogs oc rest { st with
      logger := st.logger.log_repl_output o (oc.now st.clock),
      clock := st.clock + 1 }

/-- The final-answer check at the end of each iteration: run
`utils.check_for_final_answer` (which may append tool_execution and
repl_output events), and on a truthy answer (Python `if final_answer:`
— false for None and for the empty string) log and stream the
`final_answer` event and return it. -/
def finalCheck (oc : Oracle R) (response : String) (st : RunState R) :
    RunState R × Except String (Option String) :=
  match oc.check_for_final_answer response st.repl with
  | (side, repl2, ans) =>
    let st2 := applySideLogs oc side { st with repl := repl2 }
    match ans with
    | some a =>
      if a = "" then (st2, .ok none)
      else
        (pushStream { st2 with
          logger := st2.logger.log_final_response a (oc.now st2.clock),
          clock := st2.clock + 1 }, .ok (some a))
    | none => (st2, .ok none)

/-- One iteration of the main loop of `RLM_WEB.completion`: call the
Model, log and stream the `model_response` event, process code blocks
(logging and streaming one `code_execution` event per new
ExecutionRecord) or append the assistant message, then run the
final-answer check. `.error e` models an exception propagating out. -/
def runIteration (oc : Oracle R) (query : Option String) (i : Nat) (st : RunState R) :
    RunState R × Except String (Option String) :=
  match oc.llm st.llmCalls (st.messages ++ [oc.next_action_prompt query i false]) with
  | .error e => ({ st with llmCalls := st.llmCalls + 1 }, .error e)
  | .ok response =>
    let st1 := { st with llmCalls := st.llmCalls + 1 }
    let codeBlocks := oc.find_code_blocks response
    let st2 := pushStream { st1 with
      logger := st1.logger.log_model_response response codeBlocks.isSome (oc.now st1.clock),
      clock := st1.clock + 1 }
    match codeBlocks with
    | some _ =>
      match oc.process_code_execution response st2.messages st2.repl with
      | .error e => (st2, .error e)
      | .ok (msgs2, repl2, recs) =>
        let st3 := { st2 with
          messages := msgs2,
          repl := repl2,
          replExecutions := st2.replExecutions ++ recs }
        let newExecutions := st3.replExecutions.drop st2.replExecutions.length
        finalCheck oc response (logStreamExecs oc newExecutions st3)
    | none =>
      finalCheck oc response
        { st2 with messages := st2.messages ++
            [{ role := "assistant", content := "You responded with:\n" ++ response }] }

/-- The `for iteration in range(max_iterations)` loop. `.ok none`
means the loop exhausted its bound without returning, `.ok (some a)`
the early final-answer return, `.error e` a propagating exception. -/
def completionLoop (oc : Oracle R) (query : Option String) :
    Nat → Nat → RunState R → RunState R × Except String (Option String)
  | 0, _, st => (st, .ok none)
  | fuel + 1, i, st =>
    match runIteration oc query i st with
    | (st2, .ok none) => completionLoop oc query fuel (i + 1) st2
    | (st2, .ok (some a)) => (st2, .ok (some a))
    | (st2, .error e) => (st2, .error e)

/-- `setup_context`: fresh logger, `log_query_start` with the effective
query (the default when None), forward the query_start event to the
callback, build the system prompt and the REPL environment. -/
def setup_context (oc : Oracle R) (context : String) (query : Option String) : RunState R :=
  pushStream
    { messages := oc.build_system_prompt,
      logger := WebLogger.init.log_query_start (query.getD oc.default_query) (oc.now 0),
      replExecutions := [],
      repl := oc.initRepl context,
      streamed := [],
      llmCalls := 0,
      clock := 1 }

/-- `RLM_WEB.completion`: setup, the bounded main loop, then the forced
final-answer path. When `max_iterations = 0` the loop body never runs,
so the post-loop read of the loop variable `iteration`
(`next_action_prompt(query, iteration, final_answer=True)`) raises
UnboundLocalError; otherwise `iteration = max_iterations - 1` and one
forced Model call produces the answer unconditionally. -/
def completion (oc : Oracle R) (max_iterations : Nat) (context : String)
    (query : Option String) : RunState R × Except String String :=
  match completionLoop oc query max_iterations 0 (setup_context oc context query) with
  | (st, .error e) => (st, .error e)
  | (st, .ok (some a)) => (st, .ok a)
  | (st, .ok none) =>
    match max_iterations with
    | 0 => (st, .error "UnboundLocalError: iteration referenced before assignment")
    | k + 1 =>
      let st1 := { st with messages := st.messages ++ [oc.next_action_prompt query k true] }
      match oc.llm st1.llmCalls st1.messages with
      | .error e => ({ st1 with llmCalls := st1.llmCalls + 1 }, .error e)
      | .ok a =>
        let st2 := { st1 with llmCalls := st1.llmCalls + 1 }
        (pushStream { st2 with
          logger := st2.logger.log_final_response a (oc.now st2.clock),
          clock := st2.clock + 1 }, .ok a)

/-- Outcome of the `run_rlm` worker closure in app.py: the run state
plus the `final_answer` and `error_occurred` variables the generator
inspects after the sentinel. -/
structure RunOut (R : Type) where
  st : RunState R
  final_answer : Option String
  error_occurred : Option String

/-- `run_rlm`: run completion, record the answer on success; on an
exception record `str(e)` in `error_occurred`. -/
def run_rlm (oc : Oracle R) (context query_text : String) (max_iterations : Nat) :
    RunOut R :=
  match completion oc max_iterations context (some query_text) with
  | (st, .ok a) => ⟨st, some a, none⟩
  | (st, .error e) => ⟨st, none, some e⟩

/-- One Server-Sent-Events frame produced by the `generate` generator:
either an Event payload, or one of the two terminal frames. -/
inductive Frame where
  | event (payload : JVal)
  | error (error : String)
  | complete (answer : Option String)

def Frame.isTerminal : Frame → Bool
  | .event _ => false
  | .error _ => true
  | .complete _ => true

def Frame.isError : Frame → Bool
  | .error _ => true
  | _ => false

/-- The `generate` generator of app.py: drain the queue (every event
the callback pushed, in FIFO order, then the sentinel), yielding one
frame per event; after the sentinel, yield the single terminal frame.
`if error_occurred:` is Python truthiness: an empty error string falls
through to the `complete` frame. -/
def generate (oc : Oracle R) (context query_text : String) (max_iterations : Nat) :
    List Frame :=
  let r := run_rlm oc context query_text max_iterations
  let evFrames := r.st.streamed.map (fun e => Frame.event e.to_dict)
  match r.error_occurred with
  | some s => if s = "" then evFrames ++ [Frame.complete r.final_answer]
              else evFrames ++ [Frame.error s]
  | none => evFrames ++ [Frame.complete r.final_answer]

/-- The `/api/query` route: validation first (`if not context or not
query_text`, Python falsiness of the empty string), returning the 400
response synchronously; only then is the streaming response built. -/
def query_route (oc : Oracle R) (context query_text : String) (max_iterations : Nat) :
    Except (Nat × String) (List Frame) :=
  if context = "" ∨ query_text = "" then
    .error (400, "Context and query are required")
  else
    .ok (generate oc context query_text max_iterations)

/-- Collaborators that always succeed, return no code blocks and never
recognise a final answer. -/
def ocOk : Oracle Unit :=
  { now := fun _ => "t",
    default_query := "dq",
    build_system_prompt := [],
    next_action_prompt := fun _ _ _ => ⟨"user", "p"⟩,
    llm := fun _ _ => .ok "r",
    find_code_blocks := fun _ => none,
    process_code_execution := fun _ m s => .ok (m, s, []),
    check_for_final_answer := fun _ s => ([], s, none),
    initRepl := fun _ => () }

/-- Collaborators whose Model raises (with message "boom") on its third
call, i.e. on iteration 2; no code blocks, no final answer before. -/
def ocBoom : Oracle Unit :=
  { ocOk with llm := fun k _ => if k < 2 then .ok "r" else .error "boom" }

/-- Collaborators whose Model raises with an EMPTY message on its third
call (Python `str(e) = ""`, e.g. an exception constructed without
arguments). -/
def ocEmptyErr : Oracle Unit :=
  { ocOk with llm := fun k _ => if k < 2 then .ok "r" else .error "" }

/-- Collaborators whose response contains a code block producing one
ExecutionRecord, and whose final-answer check logs one tool_execution
event and recognises the answer "ans". -/
def ocC8 : Oracle Unit :=
  { ocOk with
    llm := fun _ _ => .ok "resp",
    find_code_blocks := fun _ => some ["cb"],
    process_code_execution := fun _ m s => .ok (m, s, [⟨"cb", "out", "", none⟩]),
    check_for_final_answer := fun _ s => ([.toolExec "llm_query" "res"], s, some "ans") }

/- ------------------------------------------------------------------ -/
/- Helper lemmas                                                       -/
/- ------------------------------------------------------------------ -/

theorem mrCount_append (a b : List Event) :
    mrCount (a ++ b) = mrCount a + mrCount b := by
  simp [mrCount, List.filter_append]

theorem mrCount_eq_zero {l : List Event}
    (h : ∀ e ∈ l, e.type ≠ "model_response") : mrCount l = 0 := by
  rw [mrCount, List.length_eq_zero, List.filter_eq_nil_iff]
  intro e he
  simpa using h e he

theorem mrCount_singleton_mr (ts : String) (d : List (String × JVal)) (s : Option Nat) :
    mrCount [⟨"model_response", ts, d, s⟩] = 1 := rfl

theorem mrCount_singleton_ne (e : Event) (h : ¬e.type = "model_response") :
    mrCount [e] = 0 :=
  mrCount_eq_zero (fun x hx => by rw [List.mem_singleton.mp hx]; exact h)

theorem stepsOk_singleton {e : Event} (h : eventStepOk [] e) : stepsOk [e] := by
  intro i hi
  have h1 : i < 1 := by simpa using hi
  have hz : i = 0 := by omega
  subst hz
  simpa using h

theorem stepsOk_append_singleton {evs : List Event} {e : Event}
    (h1 : stepsOk evs) (h2 : eventStepOk evs e) : stepsOk (evs ++ [e]) := by
  intro i hi
  have hi' : i < evs.length + 1 := by simpa using hi
  rcases Nat.lt_or_ge i evs.length with hlt | hge
  · have hg : (evs ++ [e])[i] = evs[i] := List.getElem_append_left hlt
    have ht : (evs ++ [e]).take i = evs.take i :=
      List.take_append_of_le_length (Nat.le_of_lt hlt)
    rw [hg, ht]
    exact h1 i hlt
  · have hieq : i = evs.length := by omega
    subst hieq
    have hg : (evs ++ [e])[evs.length] = e := by
      rw [List.getElem_append_right (Nat.le_refl _)]
      simp
    have ht : (evs ++ [e]).take evs.length = evs := List.take_left evs [e]
    rw [hg, ht]
    exact h2

/-- Unfolding of `eventStepOk` on a literal event record. -/
theorem eventStepOk_mk (pre : List Event) (ty ts : String)
    (d : List (String × JVal)) (s : Option Nat) :
    eventStepOk pre ⟨ty, ts, d, s⟩ =
      (if ty = "model_response" then s = some (mrCount pre + 1)
       else if ty = "code_execution" ∨ ty = "repl_output" ∨ ty = "tool_execution" then
         s = some (mrCount pre)
       else s = none) := rfl

theorem loggerInv_applyOp (l : WebLogger) (op : LoggerOp) (h : loggerInv l) :
    loggerInv (applyOp l op) := by
  obtain ⟨hs, hc⟩ := h
  cases op with
  | query_start q ts =>
    refine ⟨stepsOk_singleton ?_, rfl⟩
    rw [eventStepOk_mk]
    simp
  | clear =>
    exact ⟨fun i hi => by simp [applyOp, WebLogger.clear] at hi, rfl⟩
  | model_response r b ts =>
    refine ⟨stepsOk_append_singleton hs ?_, ?_⟩
    · rw [eventStepOk_mk]
      simp [hc]
    · show l.conversation_step + 1 = mrCount (l.events ++ [_])
      rw [mrCount_append, mrCount_singleton_mr, hc]
  | code_execution c o e t ts =>
    refine ⟨stepsOk_append_singleton hs ?_, ?_⟩
    · rw [eventStepOk_mk]
      simp [hc]
    · show l.conversation_step = mrCount (l.events ++ [_])
      rw [mrCount_append, hc]
      simp [mrCount_singleton_ne]
  | repl_output o ts =>
    refine ⟨stepsOk_append_singleton hs ?_, ?_⟩
    · rw [eventStepOk_mk]
      simp [hc]
    · show l.conversation_step = mrCount (l.events ++ [_])
      rw [mrCount_append, hc]
      simp [mrCount_singleton_ne]
  | tool_execution t r ts =>
    refine ⟨stepsOk_append_singleton hs ?_, ?_⟩
    · rw [eventStepOk_mk]
      simp [hc]
    · show l.conversation_step = mrCount (l.events ++ [_])
      rw [mrCount_append, hc]
      simp [mrCount_singleton_ne]
  | final_response r ts =>
    refine ⟨stepsOk_append_singleton hs ?_, ?_⟩
    · rw [eventStepOk_mk]
      simp
    · show l.conversation_step = mrCount (l.events ++ [_])
      rw [mrCount_append, hc]
      simp [mrCount_singleton_ne]
  | error_log e ts =>
    refine ⟨stepsOk_append_singleton hs ?_, ?_⟩
    · rw [eventStepOk_mk]
      simp
    · show l.conversation_step = mrCount (l.events ++ [_])
      rw [mrCount_append, hc]
      simp [mrCount_singleton_ne]

theorem loggerInv_applyOps (ops : List LoggerOp) (l : WebLogger)
    (h : loggerInv l) : loggerInv (applyOps ops l) := by
  induction ops generalizing l with
  | nil => exact h
  | cons op rest ih =>
    rw [applyOps, List.foldl_cons]
    exact ih _ (loggerInv_applyOp l op h)

theorem loggerInv_after_query_start (q ts : String) :
    loggerInv (WebLogger.init.log_query_start q ts) := by
  refine ⟨stepsOk_singleton (by simp [eventStepOk]), rfl⟩

theorem pushStream_of_concat (st : RunState R) (evs0 : List Event) (ev : Event)
    (h : st.logger.events = evs0 ++ [ev]) :
    pushStream st = { st with streamed := st.streamed ++ [ev] } := by
  unfold pushStream
  rw [h, List.getLast?_concat]

theorem logStreamExecs_spec (oc : Oracle R) (rs : List ExecutionRecord) (st : RunState R) :
    ∃ L, (logStreamExecs oc rs st).logger.events = st.logger.events ++ L ∧
      (logStreamExecs oc rs st).streamed = st.streamed ++ L ∧
      (∀ e ∈ L, e.type = "code_execution") ∧
      (logStreamExecs oc rs st).llmCalls = st.llmCalls ∧
      (logStreamExecs oc rs st).messages = st.messages ∧
      (logStreamExecs oc rs st).repl = st.repl := by
  induction rs generalizing st with
  | nil => exact ⟨[], by simp [logStreamExecs]⟩
  | cons r rs ih =>
    rw [logStreamExecs,
        pushStream_of_concat _ st.logger.events _ rfl]
    dsimp only
    obtain ⟨L, h1, h2, h3, h4, h5, h6⟩ := ih _
    refine ⟨⟨"code_execution", oc.now st.clock,
      [("code", .str r.code), ("stdout", .str r.stdout), ("stderr", .str r.stderr),
       ("execution_time", match r.execution_time with
                          | some n => .int n
                          | none => .null)],
      some st.logger.conversation_step⟩ :: L, ?_, ?_, ?_, ?_, ?_, ?_⟩
    · rw [h1]; simp [WebLogger.log_code_execution]
    · rw [h2]; simp
    · intro e he
      rcases List.mem_cons.mp he with rfl | hmem
      · rfl
      · exact h3 e hmem
    · exact h4
    · exact h5
    · exact h6

theorem applySideLogs_spec (oc : Oracle R) (side : List SideLog) (st : RunState R) :
    ∃ L, (applySideLogs oc side st).logger.events = st.logger.events ++ L ∧
      (applySideLogs oc side st).streamed = st.streamed ∧
      (∀ e ∈ L, e.type = "tool_execution" ∨ e.type = "repl_output") ∧
      (applySideLogs oc side st).llmCalls = st.llmCalls ∧
      (applySideLogs oc side st).messages = st.messages ∧
      (applySideLogs oc side st).repl = st.repl := by
  induction side generalizing st with
  | nil => exact ⟨[], by simp [applySideLogs]⟩
  | cons s side ih =>
    cases s with
    | toolExec t r =>
      rw [applySideLogs]
      obtain ⟨L, h1, h2, h3, h4, h5, h6⟩ := ih _
      refine ⟨⟨"tool_execution", oc.now st.clock,
        [("tool", .str t), ("result", .str r)],
        some st.logger.conversation_step⟩ :: L, ?_, ?_, ?_, ?_, ?_, ?_⟩
      · rw [h1]; simp [WebLogger.log_tool_execution]
      · rw [h2]
      · intro e he
        rcases List.mem_cons.mp he with rfl | hmem
        · exact Or.inl rfl
        · exact h3 e hmem
      · exact h4
      · exact h5
      · exact h6
    | replOut o =>
      rw [applySideLogs]
      obtain ⟨L, h1, h2, h3, h4, h5, h6⟩ := ih _
      refine ⟨⟨"repl_output", oc.now st.clock,
        [("output", .str o)],
        some st.logger.conversation_step⟩ :: L, ?_, ?_, ?_, ?_, ?_, ?_⟩
      · rw [h1]; simp [WebLogger.log_repl_output]
      · rw [h2]
      · intro e he
        rcases List.mem_cons.mp he with rfl | hmem
        · exact Or.inr rfl
        · exact h3 e hmem
      · exact h4
      · exact h5
      · exact h6

theorem pushStream_model_response (oc : Oracle R) (st : RunState R)
    (response : String) (b : Bool) :
    pushStream { st with
      logger := st.logger.log_model_response response b (oc.now st.clock),
      clock := st.clock + 1 } =
    { st with
      logger := st.logger.log_model_response response b (oc.now st.clock),
      clock := st.clock + 1,
      streamed := st.streamed ++ [⟨"model_response", oc.now st.clock,
        [("response", .str response), ("has_tool_calls", .bool b)],
        some (st.logger.conversation_step + 1)⟩] } := by
  apply pushStream_of_concat _ st.logger.events
  simp [WebLogger.log_model_response]

theorem pushStream_final_response (oc : Oracle R) (st : RunState R) (a : String) :
    pushStream { st with
      logger := st.logger.log_final_response a (oc.now st.clock),
      clock := st.clock + 1 } =
    { st with
      logger := st.logger.log_final_response a (oc.now st.clock),
      clock := st.clock + 1,
      streamed := st.streamed ++
        [⟨"final_answer", oc.now st.clock, [("answer", .str a)], none⟩] } := by
  apply pushStream_of_concat _ st.logger.events
  simp [WebLogger.log_final_response]

theorem setup_context_spec (oc : Oracle R) (c : String) (q : Option String) :
    (setup_context oc c q).streamed =
      [⟨"query_start", oc.now 0, [("query", .str (q.getD oc.default_query))], none⟩] ∧
    (setup_context oc c q).llmCalls = 0 ∧
    (setup_context oc c q).logger.events =
      [⟨"query_start", oc.now 0, [("query", .str (q.getD oc.default_query))], none⟩] :=
  ⟨rfl, rfl, rfl⟩

/-- When the final-answer check does not recognise a truthy answer
(None or the empty string, both falsy in Python), `finalCheck` returns
no answer, streams nothing, and only appends the check's own
tool_execution / repl_output events to the log. -/
theorem finalCheck_notfound (oc : Oracle R) (response : String) (st : RunState R)
    (h : (oc.check_for_final_answer response st.repl).2.2 = none ∨
         (oc.check_for_final_answer response st.repl).2.2 = some "") :
    (finalCheck oc response st).2 = .ok none ∧
    (finalCheck oc response st).1.streamed = st.streamed ∧
    (finalCheck oc response st).1.llmCalls = st.llmCalls ∧
    ∃ L, (finalCheck oc response st).1.logger.events = st.logger.events ++ L ∧
      ∀ e ∈ L, ¬e.type = "model_response" ∧ ¬e.type = "final_answer" := by
  rcases hch : oc.check_for_final_answer response st.repl with ⟨side, repl2, ans⟩
  rw [hch] at h
  simp only at h
  obtain ⟨L, h1, h2, h3, h4, h5, h6⟩ :=
    applySideLogs_spec oc side { st with repl := repl2 }
  have hL : ∀ e ∈ L, ¬e.type = "model_response" ∧ ¬e.type = "final_answer" := by
    intro e he
    rcases h3 e he with ht | ht <;> rw [ht] <;> exact ⟨by decide, by decide⟩
  have hfc : finalCheck oc response st =
      (applySideLogs oc side { st with repl := repl2 }, .ok none) := by
    rcases h with rfl | rfl
    · simp only [finalCheck, hch]
    · simp [finalCheck, hch]
  rw [hfc]
  exact ⟨rfl, h2, h4, L, h1, hL⟩

/-- When the final-answer check recognises a non-empty answer,
`finalCheck` returns it, appends the check's side events followed by
one `final_answer` event, and streams exactly that final event. -/
theorem finalCheck_found (oc : Oracle R) (response : String) (st : RunState R)
    (side : List SideLog) (repl2 : R) (a : String)
    (hch : oc.check_for_final_answer response st.repl = (side, repl2, some a))
    (ha : ¬a = "") :
    ∃ L fa, (finalCheck oc response st).2 = .ok (some a) ∧
      (finalCheck oc response st).1.streamed = st.streamed ++ [fa] ∧
      (finalCheck oc response st).1.logger.events = st.logger.events ++ L ++ [fa] ∧
      fa.type = "final_answer" ∧
      (∀ e ∈ L, e.type = "tool_execution" ∨ e.type = "repl_output") ∧
      (finalCheck oc response st).1.llmCalls = st.llmCalls := by
  obtain ⟨L, h1, h2, h3, h4, h5, h6⟩ :=
    applySideLogs_spec oc side { st with repl := repl2 }
  set S := applySideLogs oc side { st with repl := repl2 } with hS
  have hfc : finalCheck oc response st =
      (pushStream { S with
          logger := S.logger.log_final_response a (oc.now S.clock),
          clock := S.clock + 1 },
        .ok (some a)) := by
    rw [hS]
    simp only [finalCheck, hch, if_neg ha]
  rw [hfc, pushStream_final_response oc S a]
  dsimp only
  refine ⟨L, ⟨"final_answer", oc.now S.clock, [("answer", JVal.str a)], none⟩,
    rfl, ?_, ?_, rfl, h3, ?_⟩
  · rw [h2]
  · show (S.logger.log_final_response a (oc.now S.clock)).events = _
    rw [WebLogger.log_final_response]
    dsimp only
    rw [h1]
  · exact h4

/-- `finalCheck` never raises: its result is `.ok`. -/
theorem finalCheck_result (oc : Oracle R) (response : String) (st : RunState R) :
    (finalCheck oc response st).2 = .ok none ∨
    ∃ a, (finalCheck oc response st).2 = .ok (some a) := by
  rcases hch : oc.check_for_final_answer response st.repl with ⟨side, repl2, ans⟩
  cases ans with
  | none => exact Or.inl (by simp only [finalCheck, hch])
  | some a =>
    by_cases he : a = ""
    · exact Or.inl (by simp only [finalCheck, hch, if_pos he])
    · exact Or.inr ⟨a, by simp only [finalCheck, hch, if_neg he]⟩

/-- When `finalCheck` finds no answer it streams nothing. -/
theorem finalCheck_ok_none_streamed (oc : Oracle R) (response : String) (st : RunState R)
    (h : (finalCheck oc response st).2 = .ok none) :
    (finalCheck oc response st).1.streamed = st.streamed := by
  rcases hch : oc.check_for_final_answer response st.repl with ⟨side, repl2, ans⟩
  obtain ⟨L, h1, h2, h3, h4, h5, h6⟩ :=
    applySideLogs_spec oc side { st with repl := repl2 }
  cases ans with
  | none => simpa only [finalCheck, hch] using h2
  | some a =>
    by_cases he : a = ""
    · simpa only [finalCheck, hch, if_pos he] using h2
    · exfalso
      simp only [finalCheck, hch, if_neg he] at h
      exact Option.noConfusion (Except.ok.inj h)

/-- `pushStream` after `log_model_response`, on an explicit state. -/
theorem pushStream_log_mr (ms : List Message) (lg : WebLogger)
    (rx : List ExecutionRecord) (rp : R) (sd : List Event) (lc ck : Nat)
    (response : String) (b : Bool) (ts : String) :
    pushStream (RunState.mk ms (lg.log_model_response response b ts) rx rp sd lc ck) =
      RunState.mk ms (lg.log_model_response response b ts) rx rp
        (sd ++ [⟨"model_response", ts,
          [("response", .str response), ("has_tool_calls", .bool b)],
          some (lg.conversation_step + 1)⟩]) lc ck := by
  unfold pushStream
  dsimp only
  rw [show (lg.log_model_response response b ts).events = lg.events ++
    [(⟨"model_response", ts,
      [("response", JVal.str response), ("has_tool_calls", JVal.bool b)],
      some (lg.conversation_step + 1)⟩ : Event)] from rfl, List.getLast?_concat]

/-- `pushStream` after `log_final_response`, on an explicit state. -/
theorem pushStream_log_final (ms : List Message) (lg : WebLogger)
    (rx : List ExecutionRecord) (rp : R) (sd : List Event) (lc ck : Nat)
    (a ts : String) :
    pushStream (RunState.mk ms (lg.log_final_response a ts) rx rp sd lc ck) =
      RunState.mk ms (lg.log_final_response a ts) rx rp
        (sd ++ [⟨"final_answer", ts, [("answer", .str a)], none⟩]) lc ck := by
  unfold pushStream
  dsimp only
  rw [show (lg.log_final_response a ts).events = lg.events ++
    [(⟨"final_answer", ts, [("answer", JVal.str a)], none⟩ : Event)] from rfl,
    List.getLast?_concat]

/-- When `finalCheck` does not return an answer, it streams nothing. -/
theorem finalCheck_notfound_streamed (oc : Oracle R) (response : String) (st : RunState R)
    (h : ∀ a, (finalCheck oc response st).2 ≠ .ok (some a)) :
    (finalCheck oc response st).1.streamed = st.streamed := by
  rcases finalCheck_result oc response st with hok | ⟨a, ha⟩
  · exact finalCheck_ok_none_streamed oc response st hok
  · exact absurd ha (h a)

/-- Case analysis for one loop iteration: the Model call raises; or the
Executor raises after the model_response event was logged and streamed;
or the iteration reaches the final-answer check in a state whose log and
stream both grew by exactly the model_response event followed by the
iteration's code_execution events. -/
theorem runIteration_cases (oc : Oracle R) (q : Option String) (i : Nat) (st : RunState R) :
    (∃ e, oc.llm st.llmCalls (st.messages ++ [oc.next_action_prompt q i false]) = .error e ∧
       runIteration oc q i st = ({ st with llmCalls := st.llmCalls + 1 }, .error e)) ∨
    (∃ response bs e ST2,
       oc.llm st.llmCalls (st.messages ++ [oc.next_action_prompt q i false]) = .ok response ∧
       oc.find_code_blocks response = some bs ∧
       oc.process_code_execution response st.messages st.repl = .error e ∧
       runIteration oc q i st = (ST2, .error e) ∧
       ST2.llmCalls = st.llmCalls + 1 ∧
       ∃ mrEv, ST2.streamed = st.streamed ++ [mrEv] ∧
         ST2.logger.events = st.logger.events ++ [mrEv] ∧
         mrEv.type = "model_response") ∨
    (∃ response ST mrEv Lcex,
       oc.llm st.llmCalls (st.messages ++ [oc.next_action_prompt q i false]) = .ok response ∧
       runIteration oc q i st = finalCheck oc response ST ∧
       ST.llmCalls = st.llmCalls + 1 ∧
       ST.streamed = st.streamed ++ mrEv :: Lcex ∧
       ST.logger.events = st.logger.events ++ mrEv :: Lcex ∧
       mrEv.type = "model_response" ∧
       (∀ e ∈ Lcex, e.type = "code_execution") ∧
       ((oc.find_code_blocks response = none ∧ ST.repl = st.repl) ∨
        (∃ bs msgs2 repl2 recs,
          oc.find_code_blocks response = some bs ∧
          oc.process_code_execution response st.messages st.repl = .ok (msgs2, repl2, recs) ∧
          ST.repl = repl2))) := by
  rcases hr : oc.llm st.llmCalls (st.messages ++ [oc.next_action_prompt q i false])
    with e | response
  · refine Or.inl ⟨e, rfl, ?_⟩
    simp only [runIteration, hr]
  · rcases hcb : oc.find_code_blocks response with _ | bs
    · -- no code blocks: assistant message is appended, then the check runs
      refine Or.inr (Or.inr ⟨response,
        { st with
          llmCalls := st.llmCalls + 1,
          logger := st.logger.log_model_response response false (oc.now st.clock),
          clock := st.clock + 1,
          streamed := st.streamed ++ [⟨"model_response", oc.now st.clock,
            [("response", .str response), ("has_tool_calls", .bool false)],
            some (st.logger.conversation_step + 1)⟩],
          messages := st.messages ++
            [⟨"assistant", "You responded with:\n" ++ response⟩] },
        ⟨"model_response", oc.now st.clock,
          [("response", .str response), ("has_tool_calls", .bool false)],
          some (st.logger.conversation_step + 1)⟩, [],
        rfl, ?_, rfl, rfl, ?_, rfl, by simp, Or.inl ⟨hcb, rfl⟩⟩)
      · simp only [runIteration, hr, hcb, Option.isSome_none]
        rw [pushStream_log_mr]
      · show st.logger.events ++ [_] = _
        simp [WebLogger.log_model_response]
    · -- code blocks found: dispatch the Executor
      rcases hpce : oc.process_code_execution response st.messages st.repl
        with e | ⟨msgs2, repl2, recs⟩
      · -- Executor raises
        refine Or.inr (Or.inl ⟨response, bs, e,
          { st with
            llmCalls := st.llmCalls + 1,
            logger := st.logger.log_model_response response true (oc.now st.clock),
            clock := st.clock + 1,
            streamed := st.streamed ++ [⟨"model_response", oc.now st.clock,
              [("response", .str response), ("has_tool_calls", .bool true)],
              some (st.logger.conversation_step + 1)⟩] },
          rfl, hcb, hpce, ?_, rfl,
          ⟨"model_response", oc.now st.clock,
            [("response", .str response), ("has_tool_calls", .bool true)],
            some (st.logger.conversation_step + 1)⟩, rfl, ?_, rfl⟩)
        · simp only [runIteration, hr, hcb, Option.isSome_some]
          rw [pushStream_log_mr]
          dsimp only
          rw [hpce]
        · show st.logger.events ++ [_] = _
          simp [WebLogger.log_model_response]
      · -- Executor succeeds: log each new record then check
        obtain ⟨L1, g1, g2, g3, g4, g5, g6⟩ := logStreamExecs_spec oc recs
          { st with
            llmCalls := st.llmCalls + 1,
            logger := st.logger.log_model_response response true (oc.now st.clock),
            clock := st.clock + 1,
            streamed := st.streamed ++ [⟨"model_response", oc.now st.clock,
              [("response", .str response), ("has_tool_calls", .bool true)],
              some (st.logger.conversation_step + 1)⟩],
            messages := msgs2,
            repl := repl2,
            replExecutions := st.replExecutions ++ recs }
        refine Or.inr (Or.inr ⟨response,
          logStreamExecs oc recs
            { st with
              llmCalls := st.llmCalls + 1,
              logger := st.logger.log_model_response response true (oc.now st.clock),
              clock := st.clock + 1,
              streamed := st.streamed ++ [⟨"model_response", oc.now st.clock,
                [("response", .str response), ("has_tool_calls", .bool true)],
                some (st.logger.conversation_step + 1)⟩],
              messages := msgs2,
              repl := repl2,
              replExecutions := st.replExecutions ++ recs },
          ⟨"model_response", oc.now st.clock,
            [("response", .str response), ("has_tool_calls", .bool true)],
            some (st.logger.conversation_step + 1)⟩, L1,
          rfl, ?_, ?_, ?_, ?_, rfl, g3,
          Or.inr ⟨bs, msgs2, repl2, recs, hcb, hpce, ?_⟩⟩)
        · simp only [runIteration, hr, hcb, Option.isSome_some]
          rw [pushStream_log_mr]
          dsimp only
          rw [hpce]
          dsimp only
          rw [List.drop_left]
        · rw [g4]
        · rw [g2]
          simp
        · rw [g1]
          show _ = st.logger.events ++ _ :: L1
          simp [WebLogger.log_model_response]
        · rw [g6]

theorem mrCount_singleton_eq (e : Event) (h : e.type = "model_response") :
    mrCount [e] = 1 := by
  simp [mrCount, h]

/-- An iteration that does not return an answer streams only events
that are not `final_answer` events. -/
theorem runIteration_notfound_streamed (oc : Oracle R) (q : Option String) (i : Nat)
    (st : RunState R) (h : ∀ a, (runIteration oc q i st).2 ≠ .ok (some a)) :
    ∃ L, (runIteration oc q i st).1.streamed = st.streamed ++ L ∧
      ∀ e ∈ L, ¬e.type = "final_answer" := by
  rcases runIteration_cases oc q i st with
    ⟨e, _, heq⟩ | ⟨response, bs, e, ST2, _, _, _, heq, _, mrEv, hstr, _, hty⟩ |
    ⟨response, ST, mrEv, Lcex, _, heq, _, hstr, _, hmr, hcex, _⟩
  · rw [heq]
    exact ⟨[], by simp, by simp⟩
  · rw [heq]
    refine ⟨[mrEv], hstr, ?_⟩
    intro e2 he2
    rw [List.mem_singleton.mp he2, hty]
    decide
  · rw [heq] at h ⊢
    rw [finalCheck_notfound_streamed oc response ST h, hstr]
    refine ⟨mrEv :: Lcex, rfl, ?_⟩
    intro e2 he2
    rcases List.mem_cons.mp he2 with rfl | hm
    · rw [hmr]; decide
    · rw [hcex e2 hm]; decide

/-- A loop run that does not return an answer streams only events that
are not `final_answer` events. -/
theorem completionLoop_notfound_streamed (oc : Oracle R) (q : Option String) :
    ∀ (fuel i : Nat) (st : RunState R),
      (∀ a, (completionLoop oc q fuel i st).2 ≠ .ok (some a)) →
      ∃ L, (completionLoop oc q fuel i st).1.streamed = st.streamed ++ L ∧
        ∀ e ∈ L, ¬e.type = "final_answer" := by
  intro fuel
  induction fuel with
  | zero =>
    intro i st _
    refine ⟨[], ?_, by simp⟩
    simp [completionLoop]
  | succ n ih =>
    intro i st h
    rcases hri : runIteration oc q i st with ⟨st2, r⟩
    cases r with
    | error e =>
      have hstep : ∀ a, (runIteration oc q i st).2 ≠ .ok (some a) := by
        rw [hri]; intro a hc; exact Except.noConfusion hc
      obtain ⟨L0, f1, f2⟩ := runIteration_notfound_streamed oc q i st hstep
      rw [hri] at f1
      dsimp only at f1
      simp only [completionLoop, hri]
      exact ⟨L0, f1, f2⟩
    | ok ans =>
      cases ans with
      | some a =>
        exfalso
        apply h a
        simp only [completionLoop, hri]
      | none =>
        have hstep : ∀ a, (runIteration oc q i st).2 ≠ .ok (some a) := by
          rw [hri]; intro a hc; exact Option.noConfusion (Except.ok.inj hc)
        obtain ⟨L0, f1, f2⟩ := runIteration_notfound_streamed oc q i st hstep
        rw [hri] at f1
        dsimp only at f1
        simp only [completionLoop, hri] at h ⊢
        obtain ⟨L1, g1, g2⟩ := ih (i + 1) st2 h
        refine ⟨L0 ++ L1, ?_, ?_⟩
        · rw [g1, f1, List.append_assoc]
        · intro e he
          rcases List.mem_append.mp he with hm | hm
          · exact f2 e hm
          · exact g2 e hm

/-- If `completion` raises, no `final_answer` event was ever streamed. -/
theorem completion_error_noFA (oc : Oracle R) (n : Nat) (c : String) (q : Option String)
    (st : RunState R) (er : String) (h : completion oc n c q = (st, .error er)) :
    ∀ ev ∈ st.streamed, ¬ev.type = "final_answer" := by
  have hqs : ∀ ev ∈ (setup_context oc c q).streamed, ¬ev.type = "final_answer" := by
    intro ev hev
    obtain ⟨hs, _, _⟩ := setup_context_spec oc c q
    rw [hs, List.mem_singleton] at hev
    rw [hev]
    simp
  rcases hl : completionLoop oc q n 0 (setup_context oc c q) with ⟨st1, r⟩
  cases r with
  | error e1 =>
    simp only [completion, hl] at h
    rw [Prod.mk.injEq] at h
    obtain ⟨h1, _⟩ := h
    subst h1
    have hstep : ∀ a, (completionLoop oc q n 0 (setup_context oc c q)).2 ≠ .ok (some a) := by
      rw [hl]; intro a hc; exact Except.noConfusion hc
    obtain ⟨L, f1, f2⟩ := completionLoop_notfound_streamed oc q n 0 _ hstep
    rw [hl] at f1
    dsimp only at f1
    intro ev hev
    rw [f1] at hev
    rcases List.mem_append.mp hev with hm | hm
    · exact hqs ev hm
    · exact f2 ev hm
  | ok ans =>
    have hstep : ∀ a, (completionLoop oc q n 0 (setup_context oc c q)).2 ≠ .ok (some a) →
        True := fun _ _ => trivial
    cases ans with
    | some a =>
      simp only [completion, hl] at h
      rw [Prod.mk.injEq] at h
      exact absurd h.2 (by simp)
    | none =>
      have hstep2 : ∀ a, (completionLoop oc q n 0 (setup_context oc c q)).2 ≠ .ok (some a) := by
        rw [hl]; intro a hc; exact Option.noConfusion (Except.ok.inj hc)
      obtain ⟨L, f1, f2⟩ := completionLoop_notfound_streamed oc q n 0 _ hstep2
      rw [hl] at f1
      dsimp only at f1
      cases n with
      | zero =>
        simp only [completion, hl] at h
        rw [Prod.mk.injEq] at h
        obtain ⟨h1, _⟩ := h
        subst h1
        intro ev hev
        rw [f1] at hev
        rcases List.mem_append.mp hev with hm | hm
        · exact hqs ev hm
        · exact f2 ev hm
      | succ k =>
        simp only [completion, hl] at h
        rcases hfl : oc.llm st1.llmCalls (st1.messages ++ [oc.next_action_prompt q k true])
          with e2 | a2
        · rw [hfl] at h
          rw [Prod.mk.injEq] at h
          obtain ⟨h1, _⟩ := h
          subst h1
          intro ev hev
          dsimp only at hev
          rw [f1] at hev
          rcases List.mem_append.mp hev with hm | hm
          · exact hqs ev hm
          · exact f2 ev hm
        · rw [hfl] at h
          rw [Prod.mk.injEq] at h
          exact absurd h.2 (by simp [pushStream_log_final])

/-- Counting version of one fault-free, answer-free iteration: exactly
one Model call and exactly one `model_response` event. -/
theorem runIteration_counts (oc : Oracle R) (q : Option String) (i : Nat) (st : RunState R)
    (hllm : ∀ k m, ∃ r, oc.llm k m = .ok r)
    (hexec : ∀ r m s, ∃ x, oc.process_code_execution r m s = .ok x)
    (hans : ∀ r s, (oc.check_for_final_answer r s).2.2 = none ∨
                   (oc.check_for_final_answer r s).2.2 = some "") :
    (runIteration oc q i st).2 = .ok none ∧
    (runIteration oc q i st).1.llmCalls = st.llmCalls + 1 ∧
    mrCount (runIteration oc q i st).1.logger.events = mrCount st.logger.events + 1 := by
  rcases runIteration_cases oc q i st with
    ⟨e, hle, _⟩ | ⟨response, bs, e, ST2, _, _, hpe, _, _⟩ |
    ⟨response, ST, mrEv, Lcex, _, heq, hcalls, _, hevs, hmr, hcex, _⟩
  · obtain ⟨r0, hr0⟩ := hllm st.llmCalls (st.messages ++ [oc.next_action_prompt q i false])
    rw [hle] at hr0
    exact absurd hr0 (by simp)
  · obtain ⟨x, hx⟩ := hexec response st.messages st.repl
    rw [hpe] at hx
    exact absurd hx (by simp)
  · rw [heq]
    obtain ⟨k1, k2, k3, L2, k4, k5⟩ :=
      finalCheck_notfound oc response ST (hans response ST.repl)
    refine ⟨k1, ?_, ?_⟩
    · rw [k3, hcalls]
    · rw [k4, hevs]
      have e1 : mrCount L2 = 0 := mrCount_eq_zero (fun e he => (k5 e he).1)
      have e2 : mrCount Lcex = 0 :=
        mrCount_eq_zero (fun e he => by rw [hcex e he]; decide)
      have e3 : mrCount [mrEv] = 1 := mrCount_singleton_eq mrEv hmr
      rw [show st.logger.events ++ mrEv :: Lcex = st.logger.events ++ ([mrEv] ++ Lcex)
        by simp]
      rw [mrCount_append, mrCount_append, mrCount_append, e1, e2, e3]

/-- Counting version of a fault-free, answer-free loop run: one Model
call and one `model_response` event per unit of fuel. -/
theorem completionLoop_counts (oc : Oracle R) (q : Option String)
    (hllm : ∀ k m, ∃ r, oc.llm k m = .ok r)
    (hexec : ∀ r m s, ∃ x, oc.process_code_execution r m s = .ok x)
    (hans : ∀ r s, (oc.check_for_final_answer r s).2.2 = none ∨
                   (oc.check_for_final_answer r s).2.2 = some "") :
    ∀ (fuel i : Nat) (st : RunState R),
      (completionLoop oc q fuel i st).2 = .ok none ∧
      (completionLoop oc q fuel i st).1.llmCalls = st.llmCalls + fuel ∧
      mrCount (completionLoop oc q fuel i st).1.logger.events =
        mrCount st.logger.events + fuel := by
  intro fuel
  induction fuel with
  | zero =>
    intro i st
    exact ⟨by simp [completionLoop], by simp [completionLoop], by simp [completionLoop]⟩
  | succ n ih =>
    intro i st
    obtain ⟨c1, c2, c3⟩ := runIteration_counts oc q i st hllm hexec hans
    rcases hri : runIteration oc q i st with ⟨st2, r⟩
    rw [hri] at c1 c2 c3
    dsimp only at c1 c2 c3
    subst c1
    simp only [completionLoop, hri]
    obtain ⟨d1, d2, d3⟩ := ih (i + 1) st2
    refine ⟨d1, ?_, ?_⟩
    · rw [d2, c2]; omega
    · rw [d3, c3]; omega

/- ------------------------------------------------------------------ -/
/- Claim theorems                                                      -/
/- ------------------------------------------------------------------ -/

/-- C9: for every Event, serializing it to the wire record produced by
`to_dict` (fields type, timestamp, data, step) and parsing that record
back recovers the event exactly: the round trip loses no field. -/
theorem C9_wire_roundtrip (e : Event) :
    parseEventRecord (Event.to_dict e) = some e := by
  cases e with
  | mk ty ts d step => cases step <;> rfl

/-- C6: when the context or the query is the empty string, the route
returns the 400 validation error synchronously; no stream of frames
(hence no worker, no queue, zero events) is produced. -/
theorem C6_validation_error {R : Type} (oc : Oracle R) (c q : String) (n : Nat)
    (h : c = "" ∨ q = "") :
    query_route oc c q n = .error (400, "Context and query are required") := by
  rw [query_route, if_pos h]

theorem C6_validation_error_witness :
    query_route ocOk "" "q" 5 = .error (400, "Context and query are required") :=
  C6_validation_error ocOk "" "q" 5 (Or.inl rfl)

/-- C2 (code bug): with `max_iterations = 0` the loop body never runs,
so the post-loop read of the loop variable `iteration` raises
UnboundLocalError before any Model call: completion makes ZERO Model
calls, logs no final_answer event, and raises instead of returning the
forced call's output as the claim states. -/
theorem C2_maxIterations_zero_unbound_local :
    (completion ocOk 0 "c" (some "q")).2 =
      .error "UnboundLocalError: iteration referenced before assignment" ∧
    (completion ocOk 0 "c" (some "q")).1.llmCalls = 0 ∧
    ((completion ocOk 0 "c" (some "q")).1.logger.events.filter
      (fun e => e.type == "final_answer")).length = 0 :=
  ⟨rfl, rfl, rfl⟩

/-- C4 (code bug): a `tool_execution` event appended to the EventLog by
the final-answer check is present in the log but is never forwarded to
the registered observer callback: the delivered stream omits it,
contradicting the claim that every append reaches the callback. -/
theorem C4_final_check_events_not_streamed :
    ((completion ocC8 1 "c" (some "q")).1.logger.events.filter
      (fun e => e.type == "tool_execution")).length = 1 ∧
    ((completion ocC8 1 "c" (some "q")).1.streamed.filter
      (fun e => e.type == "tool_execution")).length = 0 :=
  ⟨rfl, rfl⟩

/-- C3 counterexample: at `maxIterations = 0` (final-answer check
vacuously never matches) the Model collaborator is called 0 times, not
N + 1 = 1 times as the claim states. -/
theorem C3_counterexample_zero_iterations :
    (completion ocOk 0 "c" (some "q")).1.llmCalls = 0 ∧
    (completion ocOk 0 "c" (some "q")).1.llmCalls ≠ 1 :=
  ⟨rfl, by decide⟩

/-- C5 counterexample: an event present in the log before a `clear()`
call is no longer present after it, so the claim quantifying over
every logger operation fails. -/
theorem C5_counterexample_clear_removes :
    (WebLogger.init.log_query_start "q" "t").events.length = 1 ∧
    ((WebLogger.init.log_query_start "q" "t").clear).events.length = 0 :=
  ⟨rfl, rfl⟩

/-- C5 (amended): every logger operation other than the two resetting
ones (`clear` and `log_query_start`) only appends: the whole previous
event list is still present, unchanged and in the same positions, as a
prefix of the new list. -/
theorem C5_append_only_non_reset (l : WebLogger) (op : LoggerOp)
    (h : op.isReset = false) :
    ∃ e, (applyOp l op).events = l.events ++ [e] := by
  cases op with
  | query_start q ts => exact absurd h (by simp [LoggerOp.isReset])
  | clear => exact absurd h (by simp [LoggerOp.isReset])
  | model_response r b ts => exact ⟨_, rfl⟩
  | code_execution c o e t ts => exact ⟨_, rfl⟩
  | repl_output o ts => exact ⟨_, rfl⟩
  | final_response r ts => exact ⟨_, rfl⟩
  | error_log e ts => exact ⟨_, rfl⟩
  | tool_execution t r ts => exact ⟨_, rfl⟩

theorem C5_append_only_non_reset_witness :
    ∃ e, (applyOp (WebLogger.init.log_query_start "q" "t0")
      (.model_response "r" true "t1")).events =
      (WebLogger.init.log_query_start "q" "t0").events ++ [e] :=
  C5_append_only_non_reset (WebLogger.init.log_query_start "q" "t0")
    (.model_response "r" true "t1") rfl

/-- C10: in every event sequence a WebLogger produces after
`log_query_start` (any further sequence of logger calls), every event
obeys the step-numbering discipline: `model_response` events carry
steps 1, 2, 3, ... consecutively (the i-th carries the number of model
responses before it plus one), `code_execution` / `repl_output` /
`tool_execution` events carry the number of `model_response` events
appended before them, and `query_start` / `final_answer` / `error`
events carry no step. -/
theorem C10_step_numbering (ops : List LoggerOp) (q ts : String) :
    stepsOk (applyOps ops (WebLogger.init.log_query_start q ts)).events :=
  (loggerInv_applyOps ops _ (loggerInv_after_query_start q ts)).1

theorem filter_terminal_eventFrames (l : List Event) :
    (l.map (fun e => Frame.event e.to_dict)).filter (fun f => f.isTerminal) = [] := by
  induction l with
  | nil => rfl
  | cons e t ih => simp [Frame.isTerminal, ih]

/-- C1: for every run, the generator yields one frame per streamed
Event, in order, followed by exactly one terminal frame (complete or
error); no Event frame follows the terminal frame and no streamed
Event is dropped. -/
theorem C1_stream_terminal_once {R : Type} (oc : Oracle R) (c q : String) (n : Nat) :
    ∃ t : Frame, generate oc c q n =
        (run_rlm oc c q n).st.streamed.map (fun e => Frame.event e.to_dict) ++ [t] ∧
      t.isTerminal = true ∧
      ((generate oc c q n).filter (fun f => f.isTerminal)).length = 1 := by
  rcases hr : run_rlm oc c q n with ⟨st, fa, eo⟩
  cases eo with
  | none =>
    refine ⟨Frame.complete fa, ?_, rfl, ?_⟩
    · simp only [generate, hr]
    · simp only [generate, hr]
      rw [List.filter_append, filter_terminal_eventFrames]
      simp [Frame.isTerminal]
  | some s =>
    by_cases hs : s = ""
    · subst hs
      refine ⟨Frame.complete fa, ?_, rfl, ?_⟩
      · simp only [generate, hr, if_true]
      · simp only [generate, hr, if_true]
        rw [List.filter_append, filter_terminal_eventFrames]
        simp [Frame.isTerminal]
    · refine ⟨Frame.error s, ?_, rfl, ?_⟩
      · simp only [generate, hr]
        rw [if_neg hs]
      · simp only [generate, hr]
        rw [if_neg hs, List.filter_append, filter_terminal_eventFrames]
        simp [Frame.isTerminal]

/-- C7 counterexample: when the Model raises with an EMPTY string
description (iteration 2 of a 10-iteration run, prior events already
streamed), the Python truthiness test `if error_occurred:` is false, so
the consumer receives the COMPLETE frame (answer None) and no error
frame at all — the claim as stated fails. -/
theorem C7_counterexample_empty_error_message :
    (run_rlm ocEmptyErr "c" "q" 10).error_occurred = some "" ∧
    (generate ocEmptyErr "c" "q" 10).getLast? = some (Frame.complete none) ∧
    (generate ocEmptyErr "c" "q" 10).all (fun f => !f.isError) = true :=
  ⟨rfl, rfl, rfl⟩

/-- C7 (amended): if a collaborator raises with a NON-EMPTY string
description, the consumer receives all previously streamed Events, in
order, followed by exactly one terminal error frame carrying that
description, and no `final_answer` Event ever appears in the delivered
stream. -/
theorem C7_error_frame_after_events {R : Type} (oc : Oracle R) (c q : String) (n : Nat)
    (e : String) (he : (run_rlm oc c q n).error_occurred = some e) (hne : ¬e = "") :
    generate oc c q n =
      (run_rlm oc c q n).st.streamed.map (fun ev => Frame.event ev.to_dict) ++
        [Frame.error e] ∧
    ∀ ev ∈ (run_rlm oc c q n).st.streamed, ¬ev.type = "final_answer" := by
  rcases hc : completion oc n c (some q) with ⟨st, r⟩
  cases r with
  | ok a =>
    simp only [run_rlm, hc] at he
    exact Option.noConfusion he
  | error e2 =>
    have hrun : run_rlm oc c q n = ⟨st, none, some e2⟩ := by
      simp only [run_rlm, hc]
    rw [hrun] at he
    dsimp only at he
    obtain rfl : e2 = e := Option.some.inj he
    have hno := completion_error_noFA oc n c (some q) st e2 hc
    refine ⟨?_, ?_⟩
    · simp only [generate, hrun]
      rw [if_neg hne]
    · intro ev hev
      rw [hrun] at hev
      exact hno ev hev

theorem C7_error_frame_after_events_witness :
    generate ocBoom "c" "q" 10 =
      (run_rlm ocBoom "c" "q" 10).st.streamed.map (fun ev => Frame.event ev.to_dict) ++
        [Frame.error "boom"] ∧
    ∀ ev ∈ (run_rlm ocBoom "c" "q" 10).st.streamed, ¬ev.type = "final_answer" :=
  C7_error_frame_after_events ocBoom "c" "q" 10 "boom" rfl (by decide)

/-- C3 (amended): for every run with `maxIterations = N ≥ 1` in which
no Model or Executor call faults and the final-answer check never
matches, the main loop produces exactly N `model_response` Events and
the Model collaborator is called exactly N + 1 times in total (the one
extra call being the forced final-answer call). -/
theorem C3_model_calls_count {R : Type} (oc : Oracle R) (c : String) (q : Option String)
    (N : Nat) (hN : 1 ≤ N)
    (hllm : ∀ k m, ∃ r, oc.llm k m = .ok r)
    (hexec : ∀ r m s, ∃ x, oc.process_code_execution r m s = .ok x)
    (hans : ∀ r s, (oc.check_for_final_answer r s).2.2 = none ∨
                   (oc.check_for_final_answer r s).2.2 = some "") :
    (completion oc N c q).1.llmCalls = N + 1 ∧
    mrCount (completion oc N c q).1.logger.events = N ∧
    ∃ a, (completion oc N c q).2 = .ok a := by
  obtain ⟨k, rfl⟩ : ∃ k, N = k + 1 := ⟨N - 1, by omega⟩
  obtain ⟨d1, d2, d3⟩ := completionLoop_counts oc q hllm hexec hans (k + 1) 0
    (setup_context oc c q)
  rcases hl : completionLoop oc q (k + 1) 0 (setup_context oc c q) with ⟨st1, r⟩
  rw [hl] at d1 d2 d3
  dsimp only at d1 d2 d3
  subst d1
  obtain ⟨a2, ha2⟩ := hllm st1.llmCalls (st1.messages ++ [oc.next_action_prompt q k true])
  have hcp : completion oc (k + 1) c q =
      (pushStream { st1 with
          messages := st1.messages ++ [oc.next_action_prompt q k true],
          llmCalls := st1.llmCalls + 1,
          logger := st1.logger.log_final_response a2 (oc.now st1.clock),
          clock := st1.clock + 1 },
        .ok a2) := by
    simp only [completion, hl]
    rw [ha2]
  rw [hcp, pushStream_log_final]
  dsimp only
  obtain ⟨hs0, hc0, he0⟩ := setup_context_spec oc c q
  refine ⟨?_, ?_, a2, rfl⟩
  · rw [d2, hc0]
    omega
  · show mrCount ((st1.logger.log_final_response a2 (oc.now st1.clock)).events) = k + 1
    rw [WebLogger.log_final_response]
    dsimp only
    rw [mrCount_append,
        mrCount_singleton_ne ⟨"final_answer", oc.now st1.clock,
          [("answer", JVal.str a2)], none⟩ (by simp),
        d3, he0,
        mrCount_singleton_ne ⟨"query_start", oc.now 0,
          [("query", JVal.str (q.getD oc.default_query))], none⟩ (by simp)]
    omega

theorem C3_model_calls_count_witness :
    (completion ocOk 3 "c" (some "q")).1.llmCalls = 3 + 1 ∧
    mrCount (completion ocOk 3 "c" (some "q")).1.logger.events = 3 ∧
    ∃ a, (completion ocOk 3 "c" (some "q")).2 = .ok a :=
  C3_model_calls_count ocOk "c" (some "q") 3 (by decide)
    (fun _ _ => ⟨"r", rfl⟩) (fun _ m s => ⟨(m, s, []), rfl⟩) (fun _ _ => Or.inl rfl)

/-- C8: within a single iteration whose model response contains code
blocks AND whose final-answer check recognises a (non-empty) answer,
the iteration's log grows by the model_response event, then all of the
iteration's code_execution events, then the check's own side events
(tool_execution / repl_output, never code_execution), then the single
final_answer event: the final_answer event comes after every
code_execution event of the iteration. -/
theorem C8_code_execution_before_final_answer {R : Type} (oc : Oracle R)
    (q : Option String) (i : Nat) (st : RunState R)
    (response : String) (bs : List String) (msgs2 : List Message) (repl2 : R)
    (recs : List ExecutionRecord) (side : List SideLog) (repl3 : R) (a : String)
    (hllm : oc.llm st.llmCalls (st.messages ++ [oc.next_action_prompt q i false]) =
      .ok response)
    (hcb : oc.find_code_blocks response = some bs)
    (hexec : oc.process_code_execution response st.messages st.repl =
      .ok (msgs2, repl2, recs))
    (hchk : oc.check_for_final_answer response repl2 = (side, repl3, some a))
    (ha : ¬a = "") :
    ∃ mr cexs sides fa,
      (runIteration oc q i st).1.logger.events =
        st.logger.events ++ [mr] ++ cexs ++ sides ++ [fa] ∧
      mr.type = "model_response" ∧
      (∀ e ∈ cexs, e.type = "code_execution") ∧
      (∀ e ∈ sides, ¬e.type = "code_execution" ∧ ¬e.type = "final_answer") ∧
      fa.type = "final_answer" ∧
      (runIteration oc q i st).2 = .ok (some a) := by
  rcases runIteration_cases oc q i st with
    ⟨e, hle, _⟩ | ⟨response2, bs2, e, ST2, hl2, _, hp2, _, _⟩ |
    ⟨response2, ST, mrEv, Lcex, hl2, heq, _, _, hevs, hmr, hcex, hrepl⟩
  · rw [hllm] at hle
    exact absurd hle (by simp)
  · rw [hllm] at hl2
    obtain rfl : response2 = response := (Except.ok.inj hl2).symm
    rw [hexec] at hp2
    exact absurd hp2 (by simp)
  · rw [hllm] at hl2
    obtain rfl : response2 = response := (Except.ok.inj hl2).symm
    rcases hrepl with ⟨hnone, _⟩ | ⟨bs3, msgs3, repl2b, recs3, _, hp3, hSTrepl⟩
    · rw [hcb] at hnone
      exact absurd hnone (by simp)
    · rw [hexec] at hp3
      simp only [Except.ok.injEq, Prod.mk.injEq] at hp3
      obtain ⟨rfl, rfl, rfl⟩ := hp3
      have hchk2 : oc.check_for_final_answer response2 ST.repl = (side, repl3, some a) := by
        rw [hSTrepl]; exact hchk
      obtain ⟨L2, fa, f1, f2, f3, f4, f5, f6⟩ :=
        finalCheck_found oc response2 ST side repl3 a hchk2 ha
      refine ⟨mrEv, Lcex, L2, fa, ?_, hmr, hcex, ?_, f4, ?_⟩
      · rw [heq, f3, hevs]
        simp [List.append_assoc]
      · intro e2 he2
        rcases f5 e2 he2 with ht | ht <;> rw [ht] <;> exact ⟨by decide, by decide⟩
      · rw [heq, f1]

theorem C8_code_execution_before_final_answer_witness :
    ∃ mr cexs sides fa,
      (runIteration ocC8 (some "q") 0 (setup_context ocC8 "c" (some "q"))).1.logger.events =
        (setup_context ocC8 "c" (some "q")).logger.events ++ [mr] ++ cexs ++ sides ++ [fa] ∧
      mr.type = "model_response" ∧
      (∀ e ∈ cexs, e.type = "code_execution") ∧
      (∀ e ∈ sides, ¬e.type = "code_execution" ∧ ¬e.type = "final_answer") ∧
      fa.type = "final_answer" ∧
      (runIteration ocC8 (some "q") 0 (setup_context ocC8 "c" (some "q"))).2 =
        .ok (some "ans") :=
  C8_code_execution_before_final_answer ocC8 (some "q") 0
    (setup_context ocC8 "c" (some "q")) "resp" ["cb"] [] ()
    [⟨"cb", "out", "", none⟩] [.toolExec "llm_query" "res"] () "ans"
    rfl rfl rfl rfl (by decide)

end RlmMinimal
